import Mathlib

/-!
Verification of the noteNinja backend (src/backend/server.js).

The file embeds, in Lean, the parts of the server that the specification's
claims are about:

* the cipher wrapper (`encrypt` / `decrypt`, lines 34-61), modelled at the
  byte level over the aes-256-gcm counter-mode structure: a keystream
  derived from key and iv is XORed with the data, and an authentication tag
  is computed over the ciphertext and re-checked on decryption.  The AES
  block primitive itself lives in Node's crypto library, not in this
  repository, so the keystream and the tag function are universally
  quantified parameters; every theorem about the wrapper holds for any
  choice of primitive.

* the auto-save coordinator (`pendingNotes`, `saveTimers`,
  `noteEditStartTimes`, `scheduleAutoSave`, `saveNoteToSupabase`, the
  `note-update` socket handler, the `force-save` and `delete` routes, and
  the SIGTERM drain, lines 74-135, 148-172, 280-330, 400-416), modelled as
  a small-step state machine.  JavaScript `Map`s become insertion-ordered
  association lists.  A store write (`saveNoteToSupabase`) suspends at the
  awaited upsert, so it is split in two events: the write starts (the data
  to be written is captured and recorded as in-flight) and the write later
  completes with a success or failure outcome, at which point the
  continuation after the `await` runs.  Timers are explicit: `setTimeout`
  allocates a fresh handle and registers it live; `clearTimeout` removes a
  live handle; a live timer may fire as an event.  Time stamps are natural
  numbers supplied with each event.

* the read path (`GET /api/note/:noteId`, lines 188-277) and the listing
  (`GET /api/notes`, lines 333-397).  Both call `decrypt` on stored rows;
  the decryption outcome is abstracted as an `Option`-valued function
  parameter (`none` models the throw on tag mismatch), so the route logic
  is verified for every behaviour of the cipher.
-/

namespace NoteNinja

/-! ## Cipher (server.js lines 28-61) -/

/-- The `(encrypted, iv, authTag)` triple returned by `encrypt`.  The
ciphertext is a byte sequence; iv and tag are abstracted as numbers. -/
structure EncResult where
  encrypted : List Nat
  iv : Nat
  authTag : Nat
deriving DecidableEq, Repr

/-- Counter-mode core of aes-256-gcm: XOR the data with the keystream
`ks i` at byte position `i`, starting from position `start`. -/
def ctrXor (ks : Nat → Nat) : Nat → List Nat → List Nat
  | _, [] => []
  | i, b :: rest => (b ^^^ ks i) :: ctrXor ks (i + 1) rest

/-- `encrypt(text)` (server.js lines 34-48): encrypt under the process key
with a fresh iv, returning ciphertext, iv and authentication tag.
`ks key iv` is the aes-256-gcm keystream and `tagF key iv ct` the
authentication tag of ciphertext `ct`; both are parameters because the
primitive is Node's crypto library, not repository code. -/
def encrypt (ks : Nat → Nat → Nat → Nat) (tagF : Nat → Nat → List Nat → Nat)
    (key iv : Nat) (text : List Nat) : EncResult :=
  let encrypted := ctrXor (ks key iv) 0 text
  { encrypted := encrypted, iv := iv, authTag := tagF key iv encrypted }

/-- `decrypt(encryptedData)` (server.js lines 50-61): recompute the tag over
the ciphertext and fail (`none`, modelling the thrown error) if it does not
match; otherwise XOR with the same keystream to recover the plaintext. -/
def decrypt (ks : Nat → Nat → Nat → Nat) (tagF : Nat → Nat → List Nat → Nat)
    (key : Nat) (e : EncResult) : Option (List Nat) :=
  if tagF key e.iv e.encrypted = e.authTag then
    some (ctrXor (ks key e.iv) 0 e.encrypted)
  else
    none

/-! ## Auto-save coordinator state (server.js lines 74-135) -/

/-- The per-note pending record built by the `note-update` handler
(server.js lines 158-163): latest heading and content, the edit-session
start time as `created_at`, and the time of the edit as `updated_at`. -/
structure NoteData where
  heading : String
  content : String
  created_at : Nat
  updated_at : Nat
deriving DecidableEq, Repr

/-- Where an in-flight `saveNoteToSupabase` call was started from; the code
that resumes after its awaited upsert differs per caller. -/
inductive WriteOrigin
  | timerCb
  | forceSave
  | drain
deriving DecidableEq, Repr

/-- A `saveNoteToSupabase` call whose awaited upsert has not yet resolved,
with the data captured when the call started. -/
structure InFlightWrite where
  wid : Nat
  origin : WriteOrigin
  noteId : String
  heading : String
  content : String
deriving DecidableEq, Repr

/-- A `setTimeout` handle that has been created and neither cancelled nor
fired; it is due at `fireAt` = schedule time + 2 minutes. -/
structure ActiveTimer where
  tid : Nat
  noteId : String
  fireAt : Nat
deriving DecidableEq, Repr

/-- Insertion-ordered association-list update, matching `Map.set`: an
existing key keeps its position, a new key is appended. -/
def mapSet {α : Type} (m : List (String × α)) (k : String) (v : α) :
    List (String × α) :=
  if (m.lookup k).isSome then
    m.map (fun p => if p.1 == k then (k, v) else p)
  else
    m ++ [(k, v)]

/-- `Map.delete`: drop the entry for key `k`. -/
def mapDelete {α : Type} (m : List (String × α)) (k : String) :
    List (String × α) :=
  m.filter (fun p => p.1 != k)

/-- The server's mutable state: the three module-level maps of server.js
lines 75-77, plus the explicit timer and in-flight-write bookkeeping the
event-loop model needs, a log of successful upsert payloads, the responses
sent by the force-save route, and fresh-handle counters. -/
structure Sys where
  pendingNotes : List (String × NoteData)
  saveTimers : List (String × Nat)
  noteEditStartTimes : List (String × Nat)
  liveTimers : List ActiveTimer
  inFlight : List InFlightWrite
  writeLog : List (String × String × String)
  forceResponses : List (String × Bool)
  nextTimerId : Nat
  nextWriteId : Nat
deriving DecidableEq, Repr

/-- The empty state at server start. -/
def Sys.init : Sys :=
  { pendingNotes := [], saveTimers := [], noteEditStartTimes := []
    liveTimers := [], inFlight := [], writeLog := [], forceResponses := []
    nextTimerId := 0, nextWriteId := 0 }

/-- The auto-save delay of server.js line 131: 2 minutes in milliseconds. -/
def AUTO_SAVE_DELAY_MS : Nat := 120000

/-- `scheduleAutoSave(noteId, data)` (server.js lines 115-135): clear the
timer handle currently recorded for `noteId` if any, overwrite the pending
data with the latest values, then create a fresh 2-minute timer and record
its handle. -/
def scheduleAutoSave (s : Sys) (noteId : String) (data : NoteData) (now : Nat) :
    Sys :=
  let live1 := match s.saveTimers.lookup noteId with
    | some tid => s.liveTimers.filter (fun t => t.tid != tid)
    | none => s.liveTimers
  { s with
    pendingNotes := mapSet s.pendingNotes noteId data
    liveTimers := live1 ++ [⟨s.nextTimerId, noteId, now + AUTO_SAVE_DELAY_MS⟩]
    saveTimers := mapSet s.saveTimers noteId s.nextTimerId
    nextTimerId := s.nextTimerId + 1 }

/-- The code of `saveNoteToSupabase` that runs once its awaited upsert has
resolved (server.js lines 101-112): on success the payload is persisted
(appended to the write log) and the note's pending entry is removed; on
failure (the catch block) nothing changes and `false` is returned. -/
def applySaveResult (s : Sys) (noteId heading content : String) (ok : Bool) :
    Sys :=
  if ok then
    { s with
      writeLog := s.writeLog ++ [(noteId, heading, content)]
      pendingNotes := mapDelete s.pendingNotes noteId }
  else
    s

/-- The `note-update` socket handler (server.js lines 148-172): record the
edit-session start time only if none is recorded for this id, then schedule
the auto-save with the latest heading and content.  (The broadcast to the
room does not touch coordinator state and is not modelled.) -/
def noteUpdate (s : Sys) (noteId heading content : String) (now : Nat) : Sys :=
  let s1 := if (s.noteEditStartTimes.lookup noteId).isSome then s
    else { s with noteEditStartTimes := s.noteEditStartTimes ++ [(noteId, now)] }
  let createdAt := (s1.noteEditStartTimes.lookup noteId).getD now
  scheduleAutoSave s1 noteId ⟨heading, content, createdAt, now⟩ now

/-- A live timer with handle `tid` fires (the callback of server.js lines
125-131): the timer is no longer live; the callback reads the note's
pending data at fire time; if present, a `saveNoteToSupabase` call starts
(the `saveTimers.delete` after the await runs at write completion);
otherwise `saveTimers.delete(noteId)` runs at once.  A handle that is not
live (already cancelled or fired) does nothing. -/
def fireTimer (s : Sys) (tid : Nat) : Sys :=
  match s.liveTimers.find? (fun t => t.tid == tid) with
  | none => s
  | some t =>
    let s1 := { s with liveTimers := s.liveTimers.filter (fun u => u.tid != tid) }
    match s1.pendingNotes.lookup t.noteId with
    | some d =>
      { s1 with
        inFlight := s1.inFlight ++
          [⟨s1.nextWriteId, .timerCb, t.noteId, d.heading, d.content⟩]
        nextWriteId := s1.nextWriteId + 1 }
    | none => { s1 with saveTimers := mapDelete s1.saveTimers t.noteId }

/-- The force-save route begins (server.js lines 280-285): a
`saveNoteToSupabase` call starts with the request body's heading and
content; everything after the await runs at write completion. -/
def forceSaveStart (s : Sys) (noteId heading content : String) : Sys :=
  { s with
    inFlight := s.inFlight ++
      [⟨s.nextWriteId, .forceSave, noteId, heading, content⟩]
    nextWriteId := s.nextWriteId + 1 }

/-- The upsert of in-flight write `wid` resolves with outcome `ok`: the
tail of `saveNoteToSupabase` runs (`applySaveResult`), then the caller's
continuation.  Timer callback: `saveTimers.delete(noteId)` (line 130).
Force-save route (lines 287-297): on success, clear any recorded timer for
the id, delete it from `saveTimers` and from `pendingNotes`, and respond
success; on failure respond failure and touch nothing.  Drain: no
continuation beyond `saveNoteToSupabase` itself. -/
def completeWrite (s : Sys) (wid : Nat) (ok : Bool) : Sys :=
  match s.inFlight.find? (fun w => w.wid == wid) with
  | none => s
  | some w =>
    let s1 := { s with inFlight := s.inFlight.filter (fun u => u.wid != wid) }
    let s2 := applySaveResult s1 w.noteId w.heading w.content ok
    match w.origin with
    | .timerCb => { s2 with saveTimers := mapDelete s2.saveTimers w.noteId }
    | .forceSave =>
      if ok then
        let s3 := match s2.saveTimers.lookup w.noteId with
          | some tid =>
            { s2 with
              liveTimers := s2.liveTimers.filter (fun t => t.tid != tid)
              saveTimers := mapDelete s2.saveTimers w.noteId }
          | none => s2
        { s3 with
          pendingNotes := mapDelete s3.pendingNotes w.noteId
          forceResponses := s3.forceResponses ++ [(w.noteId, true)] }
      else
        { s2 with forceResponses := s2.forceResponses ++ [(w.noteId, false)] }
    | .drain => s2

/-- The delete route (server.js lines 306-330): clear any recorded timer
for the id, remove it from `saveTimers`, and discard its pending entry,
before the store row is deleted.  (The store-row deletion is not an upsert
and never appends to the write log.) -/
def deleteNote (s : Sys) (noteId : String) : Sys :=
  let s1 := match s.saveTimers.lookup noteId with
    | some tid =>
      { s with
        liveTimers := s.liveTimers.filter (fun t => t.tid != tid)
        saveTimers := mapDelete s.saveTimers noteId }
    | none => s
  { s1 with pendingNotes := mapDelete s1.pendingNotes noteId }

/-- The events the coordinator reacts to. -/
inductive Ev
  | noteUpdate (noteId heading content : String) (now : Nat)
  | timerFire (tid : Nat)
  | writeComplete (wid : Nat) (ok : Bool)
  | forceSaveStart (noteId heading content : String)
  | deleteNote (noteId : String)
deriving DecidableEq, Repr

/-- One step of the event-loop model. -/
def step (s : Sys) : Ev → Sys
  | .noteUpdate nid h c now => noteUpdate s nid h c now
  | .timerFire tid => fireTimer s tid
  | .writeComplete wid ok => completeWrite s wid ok
  | .forceSaveStart nid h c => forceSaveStart s nid h c
  | .deleteNote nid => deleteNote s nid

/-- Run a sequence of events. -/
def run (s : Sys) (tr : List Ev) : Sys := tr.foldl step s

/-! ## Shutdown drain (server.js lines 400-416) -/

/-- The ids the SIGTERM handler iterates: one `saveNoteToSupabase` promise
is pushed per entry of `pendingNotes`, in map order, before any await. -/
def drainAttempts (s : Sys) : List String := s.pendingNotes.map (·.1)

/-- The SIGTERM handler (server.js lines 400-416): start a
`saveNoteToSupabase` call for every entry of `pendingNotes` and await them
all (`Promise.all`); `saveNoteToSupabase` catches its own failures and
returns `false`, so a failing write never rejects the batch.  `outcome id`
is the success or failure of the upsert for `id`; each resolved call runs
`applySaveResult`, exactly as in `completeWrite`. -/
def drainAll (s : Sys) (outcome : String → Bool) : Sys :=
  s.pendingNotes.foldl
    (fun acc p => applySaveResult acc p.1 p.2.heading p.2.content (outcome p.1))
    s

/-! ## Read path: GET /api/note/:noteId (server.js lines 188-277) -/

/-- The response shapes of the single-note fetch route: pending in-memory
data flagged `isLocalData: true` (lines 195-205), a freshly created empty
note (lines 217-244), a decrypted stored note (lines 246-272), or the
500 response of the catch block (lines 273-276). -/
inductive FetchResult
  | localData (noteId heading content : String) (updatedAt : Nat)
  | created (noteId : String) (createdAt updatedAt : Nat)
  | stored (noteId heading content : String) (createdAt updatedAt : Nat)
  | fetchError
deriving DecidableEq, Repr

/-- A row of the `notes` table: encrypted heading and content triples plus
timestamps, as selected by the routes. -/
structure StoredRow where
  note_id : String
  heading_encrypted : String
  heading_iv : String
  heading_auth_tag : String
  content_encrypted : String
  content_iv : String
  content_auth_tag : String
  created_at : Nat
  updated_at : Nat
deriving DecidableEq, Repr

/-- `GET /api/note/:noteId` (server.js lines 188-277): pending local data is
checked first and returned directly when present; otherwise the stored row
(`row`, `none` when the id is absent from the store) is used — an absent id
creates an empty note with both timestamps `now`, a present row has each
nonempty field decrypted.  `dec enc iv tag` is the outcome of
`decrypt` on a stored triple, `none` modelling the throw on tag mismatch,
which the route's catch turns into the 500 response. -/
def getNote (dec : String → String → String → Option String) (s : Sys)
    (noteId : String) (row : Option StoredRow) (now : Nat) : FetchResult :=
  match s.pendingNotes.lookup noteId with
  | some d => .localData noteId d.heading d.content d.updated_at
  | none =>
    match row with
    | none => .created noteId now now
    | some r =>
      let hRes := if r.heading_encrypted == "" then some ""
        else dec r.heading_encrypted r.heading_iv r.heading_auth_tag
      let cRes := if r.content_encrypted == "" then some ""
        else dec r.content_encrypted r.content_iv r.content_auth_tag
      match hRes, cRes with
      | some h, some c => .stored noteId h c r.created_at r.updated_at
      | _, _ => .fetchError

/-! ## Listing: GET /api/notes (server.js lines 333-397) -/

/-- One entry of the listing response. -/
structure NoteSummary where
  noteId : String
  heading : String
  content : String
  createdAt : Nat
  updatedAt : Nat
deriving DecidableEq, Repr

/-- The truncation of server.js lines 374-375 and 385-387:
`content.substring(0, 100) + (content.length > 100 ? "..." : "")`. -/
def truncateContent (c : String) : String :=
  c.take 100 ++ (if 100 < c.length then "..." else "")

/-- The decrypt-with-fallback mapping of server.js lines 343-379: heading
starts as `"Untitled"` and content as `""`; each nonempty encrypted field
is decrypted inside a try/catch whose catch restores the fallback; the
returned entry applies `heading || "Untitled"` and the truncation. -/
def decryptSummary (dec : String → String → String → Option String)
    (note : StoredRow) : NoteSummary :=
  let heading := if note.heading_encrypted == "" then "Untitled"
    else (dec note.heading_encrypted note.heading_iv note.heading_auth_tag).getD
      "Untitled"
  let content := if note.content_encrypted == "" then ""
    else (dec note.content_encrypted note.content_iv note.content_auth_tag).getD
      ""
  { noteId := note.note_id
    heading := if heading == "" then "Untitled" else heading
    content := truncateContent content
    createdAt := note.created_at
    updatedAt := note.updated_at }

/-- The pending-entry summary of server.js lines 381-390:
`data?.heading || "Untitled"` and the same truncation of the content. -/
def pendingSummary (noteId : String) (d : NoteData) : NoteSummary :=
  { noteId := noteId
    heading := if d.heading == "" then "Untitled" else d.heading
    content := truncateContent d.content
    createdAt := d.created_at
    updatedAt := d.updated_at }

/-- `GET /api/notes` (server.js lines 333-397): map the stored rows (already
ordered by `updated_at` descending by the query) through the
decrypt-with-fallback summary, then `unshift` one summary per entry of
`pendingNotes` onto the front of the array. -/
def getAllNotes (dec : String → String → String → Option String)
    (rows : List StoredRow) (pend : List (String × NoteData)) :
    List NoteSummary :=
  pend.foldl (fun acc p => pendingSummary p.1 p.2 :: acc)
    (rows.map (decryptSummary dec))

/-! ## Derived notions used by the theorems -/

/-- The claim-C1 scenario: three edits E1, E2, E3 recorded for the same id,
each before any scheduled flush has fired. -/
def threeEdits (id h1 c1 h2 c2 h3 c3 : String) (t1 t2 t3 : Nat) : List Ev :=
  [.noteUpdate id h1 c1 t1, .noteUpdate id h2 c2 t2, .noteUpdate id h3 c3 t3]

/-- The successful upsert payloads recorded for one note id, in order. -/
def writeLogFor (s : Sys) (id : String) : List (String × String × String) :=
  s.writeLog.filter (fun e => e.1 == id)

/-- How many store writes for `id` are in flight at once: two or more means
two flushes for the same id are running concurrently. -/
def flushesInFlightFor (s : Sys) (id : String) : Nat :=
  (s.inFlight.filter (fun w => w.noteId == id)).length

/-- No machinery that could still produce a store write for `id` exists: no
pending data, no live timer for the id, no in-flight write for it. -/
def NoPendingWork (s : Sys) (id : String) : Prop :=
  s.pendingNotes.lookup id = none ∧
  (∀ t ∈ s.liveTimers, t.noteId ≠ id) ∧
  (∀ w ∈ s.inFlight, w.noteId ≠ id)

/-- Events in which only time passes and started writes resolve: timer
firings and upsert completions, with no new edit, force-save or delete. -/
def passiveEv : Ev → Bool
  | .timerFire _ => true
  | .writeComplete _ _ => true
  | _ => false

/-- Book-keeping invariants of every reachable state: in-flight write ids
and recorded timer handles are below their allocation counters, and the
pending map has no duplicate keys. -/
structure WF (s : Sys) : Prop where
  wLt : ∀ w ∈ s.inFlight, w.wid < s.nextWriteId
  mLt : ∀ p ∈ s.saveTimers, p.2 < s.nextTimerId
  pNodup : (s.pendingNotes.map (·.1)).Nodup

/-- The claim-C10 failure scenario: a force-save request starts its store
write from state `s` and that write then fails. -/
def forceSaveFailState (s : Sys) (id h c : String) : Sys :=
  step (step s (.forceSaveStart id h c)) (.writeComplete s.nextWriteId false)

/-- The claim-C10 success scenario: a force-save request starts its store
write from state `s` and that write then succeeds. -/
def forceSaveOkState (s : Sys) (id h c : String) : Sys :=
  step (step s (.forceSaveStart id h c)) (.writeComplete s.nextWriteId true)

/-! ## Association-list lemmas -/

theorem lookup_cons_self {α : Type} (m : List (String × α)) (k : String)
    (v : α) : ((k, v) :: m).lookup k = some v := by
  simp [List.lookup]

theorem lookup_cons_ne {α : Type} (m : List (String × α)) (a k : String)
    (v : α) (h : k ≠ a) : ((a, v) :: m).lookup k = m.lookup k := by
  have hb : (k == a) = false := beq_eq_false_iff_ne.mpr h
  simp [List.lookup, hb]

theorem lookup_append_single {α : Type} (m : List (String × α)) (k : String)
    (v : α) (k2 : String) :
    (m ++ [(k, v)]).lookup k2 = match m.lookup k2 with
      | some w => some w
      | none => if k2 == k then some v else none := by
  induction m with
  | nil => cases hb : (k2 == k) <;> simp [List.lookup, hb]
  | cons p m ih =>
    obtain ⟨a, b⟩ := p
    by_cases hk : k2 = a
    · subst hk; simp [List.lookup]
    · rw [List.cons_append, lookup_cons_ne _ _ _ _ hk, lookup_cons_ne _ _ _ _ hk,
        ih]

theorem lookup_mapReplace {α : Type} (m : List (String × α)) (k : String)
    (v : α) (k2 : String) :
    (m.map (fun p => if p.1 == k then (k, v) else p)).lookup k2
      = if k2 == k then (m.lookup k2).map (fun _ => v) else m.lookup k2 := by
  induction m with
  | nil => cases hb : (k2 == k) <;> simp [List.lookup, hb]
  | cons p m ih =>
    obtain ⟨a, b⟩ := p
    by_cases hak : a = k
    · subst hak
      simp only [List.map_cons, beq_self_eq_true, if_true]
      by_cases hk2 : k2 = a
      · subst hk2
        rw [lookup_cons_self, lookup_cons_self]
        simp
      · have hb : (k2 == a) = false := beq_eq_false_iff_ne.mpr hk2
        rw [lookup_cons_ne _ _ _ _ hk2, lookup_cons_ne _ _ _ _ hk2, ih, hb]
    · have hb : (a == k) = false := beq_eq_false_iff_ne.mpr hak
      simp only [List.map_cons, hb, Bool.false_eq_true, if_false]
      by_cases hk2 : k2 = a
      · subst hk2
        have hb2 : (k2 == k) = false := beq_eq_false_iff_ne.mpr hak
        rw [lookup_cons_self, lookup_cons_self, hb2]
        simp
      · rw [lookup_cons_ne _ _ _ _ hk2, lookup_cons_ne _ _ _ _ hk2, ih]

theorem lookup_mapSet {α : Type} (m : List (String × α)) (k : String) (v : α) :
    (mapSet m k v).lookup k = some v := by
  unfold mapSet
  by_cases hs : (m.lookup k).isSome
  · rw [if_pos hs, lookup_mapReplace]
    obtain ⟨w, hw⟩ := Option.isSome_iff_exists.mp hs
    simp [hw]
  · rw [if_neg hs, lookup_append_single]
    have hn : m.lookup k = none := Option.not_isSome_iff_eq_none.mp hs
    simp [hn]

theorem lookup_mapSet_ne {α : Type} (m : List (String × α)) (k k2 : String)
    (v : α) (h : k2 ≠ k) : (mapSet m k v).lookup k2 = m.lookup k2 := by
  have hb : (k2 == k) = false := beq_eq_false_iff_ne.mpr h
  unfold mapSet
  by_cases hs : (m.lookup k).isSome
  · rw [if_pos hs, lookup_mapReplace, hb]
    simp
  · rw [if_neg hs, lookup_append_single]
    cases hl : m.lookup k2 <;> simp [hb]

theorem lookup_filter_comm {α : Type} (m : List (String × α))
    (f : String → Bool) (k2 : String) (hf : f k2 = true) :
    (m.filter (fun p => f p.1)).lookup k2 = m.lookup k2 := by
  induction m with
  | nil => simp
  | cons p m ih =>
    obtain ⟨a, b⟩ := p
    by_cases hk2 : k2 = a
    · subst hk2
      rw [List.filter_cons_of_pos (by simpa using hf), lookup_cons_self,
        lookup_cons_self]
    · cases hfa : f a with
      | true =>
        rw [List.filter_cons_of_pos (by simpa using hfa),
          lookup_cons_ne _ _ _ _ hk2, lookup_cons_ne _ _ _ _ hk2, ih]
      | false =>
        rw [List.filter_cons_of_neg (by simpa using hfa),
          lookup_cons_ne _ _ _ _ hk2, ih]

theorem lookup_mapDelete {α : Type} (m : List (String × α)) (k : String) :
    (mapDelete m k).lookup k = none := by
  unfold mapDelete
  induction m with
  | nil => simp
  | cons p m ih =>
    obtain ⟨a, b⟩ := p
    by_cases hk : a = k
    · subst hk
      rw [List.filter_cons_of_neg (by simp)]
      exact ih
    · rw [List.filter_cons_of_pos (by simpa using bne_iff_ne.mpr hk),
        lookup_cons_ne _ _ _ _ (Ne.symm hk)]
      exact ih

theorem lookup_mapDelete_ne {α : Type} (m : List (String × α)) (k k2 : String)
    (h : k2 ≠ k) : (mapDelete m k).lookup k2 = m.lookup k2 := by
  unfold mapDelete
  exact lookup_filter_comm m (fun a => a != k) k2 (bne_iff_ne.mpr h)

theorem mem_mapSet {α : Type} {m : List (String × α)} {k : String} {v : α}
    {p : String × α} (h : p ∈ mapSet m k v) : p ∈ m ∨ p = (k, v) := by
  unfold mapSet at h
  by_cases hs : (m.lookup k).isSome
  · rw [if_pos hs] at h
    obtain ⟨q, hq, hqe⟩ := List.mem_map.mp h
    by_cases hqk : (q.1 == k) = true
    · right
      rw [if_pos hqk] at hqe
      exact hqe.symm
    · left
      rw [if_neg hqk] at hqe
      exact hqe ▸ hq
  · rw [if_neg hs] at h
    simpa using h

theorem keys_mapSet_isSome {α : Type} (m : List (String × α)) (k : String)
    (v : α) (hs : (m.lookup k).isSome) :
    (mapSet m k v).map (·.1) = m.map (·.1) := by
  unfold mapSet
  rw [if_pos hs, List.map_map]
  refine List.map_congr_left ?_
  intro p _
  by_cases hk : (p.1 == k) = true
  · simp [hk, Function.comp, eq_of_beq hk]
  · simp [hk, Function.comp]

theorem keys_mapSet_none {α : Type} (m : List (String × α)) (k : String)
    (v : α) (hs : m.lookup k = none) :
    (mapSet m k v).map (·.1) = m.map (·.1) ++ [k] := by
  unfold mapSet
  rw [if_neg (by simp [hs]), List.map_append]
  rfl

theorem lookup_none_not_mem_keys {α : Type} {m : List (String × α)}
    {k : String} (h : m.lookup k = none) : k ∉ m.map (·.1) := by
  induction m with
  | nil => simp
  | cons p m ih =>
    obtain ⟨a, b⟩ := p
    by_cases hk : k = a
    · subst hk
      rw [lookup_cons_self] at h
      exact absurd h (by simp)
    · rw [lookup_cons_ne _ _ _ _ hk] at h
      simpa [hk] using ih h

theorem keys_nodup_mapSet {α : Type} {m : List (String × α)} {k : String}
    {v : α} (h : (m.map (·.1)).Nodup) : ((mapSet m k v).map (·.1)).Nodup := by
  by_cases hs : (m.lookup k).isSome
  · rw [keys_mapSet_isSome m k v hs]
    exact h
  · have hn : m.lookup k = none := Option.not_isSome_iff_eq_none.mp hs
    rw [keys_mapSet_none m k v hn, List.nodup_append]
    exact ⟨h, List.nodup_singleton k,
      by simpa using fun hm => lookup_none_not_mem_keys hn hm⟩

theorem keys_nodup_mapDelete {α : Type} {m : List (String × α)} {k : String}
    (h : (m.map (·.1)).Nodup) : ((mapDelete m k).map (·.1)).Nodup := by
  exact ((List.filter_sublist m).map (·.1)).nodup h

theorem lookup_some_mem {α : Type} {m : List (String × α)} {k : String}
    {v : α} (h : m.lookup k = some v) : (k, v) ∈ m := by
  induction m with
  | nil => simp [List.lookup] at h
  | cons p m ih =>
    obtain ⟨a, b⟩ := p
    by_cases hk : k = a
    · subst hk
      rw [lookup_cons_self] at h
      injection h with hbv
      rw [hbv]
      exact List.mem_cons_self _ _
    · rw [lookup_cons_ne _ _ _ _ hk] at h
      exact List.mem_cons_of_mem _ (ih h)

/-! ## The reachable-state invariant -/

theorem wf_step (s : Sys) (e : Ev) (h : WF s) : WF (step s e) := by
  cases e with
  | noteUpdate nid hd ct now =>
    show WF (noteUpdate s nid hd ct now)
    unfold NoteNinja.noteUpdate scheduleAutoSave
    set s1 : Sys := if (s.noteEditStartTimes.lookup nid).isSome then s
      else { s with noteEditStartTimes := s.noteEditStartTimes ++ [(nid, now)] }
      with hs1
    have hfields : s1.inFlight = s.inFlight ∧ s1.nextWriteId = s.nextWriteId ∧
        s1.saveTimers = s.saveTimers ∧ s1.nextTimerId = s.nextTimerId ∧
        s1.pendingNotes = s.pendingNotes := by
      rw [hs1]
      by_cases hb : (s.noteEditStartTimes.lookup nid).isSome <;>
        simp [hb]
    obtain ⟨hf1, hf2, hf3, hf4, hf5⟩ := hfields
    refine ⟨?_, ?_, ?_⟩
    · intro w hw
      simp only [hf1, hf2] at hw ⊢
      exact h.wLt w hw
    · intro p hp
      simp only [hf3, hf4] at hp ⊢
      rcases mem_mapSet hp with hin | heq
      · exact Nat.lt_succ_of_lt (h.mLt p hin)
      · rw [heq]
        exact Nat.lt_succ_self _
    · simp only [hf5]
      exact keys_nodup_mapSet h.pNodup
  | timerFire tid =>
    show WF (fireTimer s tid)
    unfold fireTimer
    cases hf : s.liveTimers.find? (fun t => t.tid == tid) with
    | none => exact h
    | some t =>
      cases hp : (s.pendingNotes.lookup t.noteId) with
      | some d =>
        simp only [hp]
        refine ⟨?_, h.mLt, h.pNodup⟩
        intro w hw
        rcases List.mem_append.mp hw with hin | hnew
        · exact Nat.lt_succ_of_lt (h.wLt w hin)
        · rw [List.mem_singleton.mp hnew]
          exact Nat.lt_succ_self _
      | none =>
        simp only [hp]
        refine ⟨h.wLt, ?_, h.pNodup⟩
        intro p hp2
        exact h.mLt p (List.mem_of_mem_filter hp2)
  | writeComplete wid ok =>
    show WF (completeWrite s wid ok)
    have hsub : ∀ {s2 : Sys}, (∀ u ∈ s2.inFlight, u ∈ s.inFlight) →
        s2.nextWriteId = s.nextWriteId →
        (∀ p ∈ s2.saveTimers, p ∈ s.saveTimers) →
        s2.nextTimerId = s.nextTimerId →
        (s2.pendingNotes.map (·.1)).Nodup → WF s2 := by
      intro s2 h1 h2 h3 h4 h5
      refine ⟨?_, ?_, h5⟩
      · intro w hw
        rw [h2]
        exact h.wLt w (h1 w hw)
      · intro p hp
        rw [h4]
        exact h.mLt p (h3 p hp)
    unfold completeWrite
    split
    · exact h
    · rename_i w hf
      dsimp only [applySaveResult]
      split <;> split <;> (try split) <;>
        refine hsub (fun u hu => List.mem_of_mem_filter hu) rfl
          (fun p hp => ?_) rfl ?_ <;>
        first
        | exact hp
        | exact List.mem_of_mem_filter hp
        | exact h.pNodup
        | exact keys_nodup_mapDelete h.pNodup
        | exact keys_nodup_mapDelete (keys_nodup_mapDelete h.pNodup)
  | forceSaveStart nid hd ct =>
    show WF (forceSaveStart s nid hd ct)
    unfold NoteNinja.forceSaveStart
    refine ⟨?_, h.mLt, h.pNodup⟩
    intro w hw
    rcases List.mem_append.mp hw with hin | hnew
    · exact Nat.lt_succ_of_lt (h.wLt w hin)
    · rw [List.mem_singleton.mp hnew]
      exact Nat.lt_succ_self _
  | deleteNote nid =>
    show WF (deleteNote s nid)
    unfold NoteNinja.deleteNote
    cases hl : (s.saveTimers.lookup nid) with
    | some tid =>
      refine ⟨h.wLt, ?_, keys_nodup_mapDelete h.pNodup⟩
      intro p hp2
      exact h.mLt p (List.mem_of_mem_filter hp2)
    | none => exact ⟨h.wLt, h.mLt, keys_nodup_mapDelete h.pNodup⟩

theorem wf_init : WF Sys.init := by
  refine ⟨?_, ?_, ?_⟩ <;> simp [Sys.init]

theorem wf_run (s : Sys) (tr : List Ev) (h : WF s) : WF (run s tr) := by
  induction tr generalizing s with
  | nil => exact h
  | cons e tr ih => exact ih (step s e) (wf_step s e h)

/-! ## Claim theorems: cipher -/

/-- XORing with the same keystream twice, from the same start position,
returns the original byte sequence. -/
theorem ctrXor_ctrXor (ks : Nat → Nat) (i : Nat) (l : List Nat) :
    ctrXor ks i (ctrXor ks i l) = l := by
  induction l generalizing i with
  | nil => rfl
  | cons b rest ih => simp [ctrXor, ih, Nat.xor_cancel_right]

/-- Claim C8: for every plaintext, decrypting the `(ciphertext, iv, authTag)`
triple produced by `encrypt` under the same process key returns exactly the
plaintext, whatever the keystream and tag primitives are: the recomputed tag
matches by construction and the counter-mode XOR is an involution. -/
theorem c8_decrypt_encrypt_roundtrip (ks : Nat → Nat → Nat → Nat)
    (tagF : Nat → Nat → List Nat → Nat) (key iv : Nat) (text : List Nat) :
    decrypt ks tagF key (encrypt ks tagF key iv text) = some text := by
  simp [encrypt, decrypt, ctrXor_ctrXor]

/-! ## Claim theorems: the auto-save coordinator -/

/-- Claim C1: after edits E1, E2, E3 for the same id within one delay
window (no flush fires in between), only E3's timer is still scheduled and
the pending data is E3's with the session start time of E1; the handles of
E1's and E2's cancelled timers fire as no-ops; when E3's timer fires and
its write completes, the write log holds exactly one write for the id and
it carries E3's heading and content, and no pending data, live timer or
in-flight write remains that could produce another. -/
theorem c1_coalesced_single_write (id h1 c1 h2 c2 h3 c3 : String)
    (t1 t2 t3 : Nat) :
    (run Sys.init (threeEdits id h1 c1 h2 c2 h3 c3 t1 t2 t3)).pendingNotes
      = [(id, ⟨h3, c3, t1, t3⟩)] ∧
    (run Sys.init (threeEdits id h1 c1 h2 c2 h3 c3 t1 t2 t3)).liveTimers
      = [⟨2, id, t3 + AUTO_SAVE_DELAY_MS⟩] ∧
    step (run Sys.init (threeEdits id h1 c1 h2 c2 h3 c3 t1 t2 t3))
        (.timerFire 0)
      = run Sys.init (threeEdits id h1 c1 h2 c2 h3 c3 t1 t2 t3) ∧
    step (run Sys.init (threeEdits id h1 c1 h2 c2 h3 c3 t1 t2 t3))
        (.timerFire 1)
      = run Sys.init (threeEdits id h1 c1 h2 c2 h3 c3 t1 t2 t3) ∧
    (run Sys.init (threeEdits id h1 c1 h2 c2 h3 c3 t1 t2 t3
        ++ [.timerFire 2, .writeComplete 0 true])).writeLog
      = [(id, h3, c3)] ∧
    (run Sys.init (threeEdits id h1 c1 h2 c2 h3 c3 t1 t2 t3
        ++ [.timerFire 2, .writeComplete 0 true])).pendingNotes = [] ∧
    (run Sys.init (threeEdits id h1 c1 h2 c2 h3 c3 t1 t2 t3
        ++ [.timerFire 2, .writeComplete 0 true])).liveTimers = [] ∧
    (run Sys.init (threeEdits id h1 c1 h2 c2 h3 c3 t1 t2 t3
        ++ [.timerFire 2, .writeComplete 0 true])).inFlight = [] := by
  refine ⟨?_, ?_, ?_, ?_, ?_, ?_, ?_, ?_⟩ <;>
    simp [threeEdits, run, step, noteUpdate, scheduleAutoSave, mapSet,
      mapDelete, Sys.init, fireTimer, completeWrite, applySaveResult,
      List.lookup, List.filter, List.find?]

/-- Claim C2: while pending data is recorded for an id, the single-note
fetch returns that pending heading and content flagged as local unsaved
data (the `isLocalData` response), whatever the store holds for the id and
whatever the cipher does: the store's value is never consulted. -/
theorem c2_read_your_own_write (tr : List Ev) (id : String) (d : NoteData)
    (hpend : (run Sys.init tr).pendingNotes.lookup id = some d)
    (dec : String → String → String → Option String) (row : Option StoredRow)
    (now : Nat) :
    getNote dec (run Sys.init tr) id row now
      = .localData id d.heading d.content d.updated_at := by
  unfold getNote
  rw [hpend]

/-- Witness for C2: one recorded edit, then a fetch while a conflicting
stored row exists. -/
theorem c2_read_your_own_write_witness :
    (run Sys.init [.noteUpdate "a" "H" "C" 5]).pendingNotes.lookup "a"
      = some ⟨"H", "C", 5, 5⟩ ∧
    getNote (fun _ _ _ => some "old") (run Sys.init [.noteUpdate "a" "H" "C" 5])
        "a" (some ⟨"a", "x", "i", "t", "y", "i", "t", 1, 2⟩) 9
      = .localData "a" "H" "C" 5 := by
  refine ⟨by decide, ?_⟩
  exact c2_read_your_own_write [.noteUpdate "a" "H" "C" 5] "a" ⟨"H", "C", 5, 5⟩
    (by decide) (fun _ _ _ => some "old")
    (some ⟨"a", "x", "i", "t", "y", "i", "t", 1, 2⟩) 9

/-- Counterexample to claim C3 as stated: an edit schedules a timer; the
timer fires and its store write is in flight (awaiting the upsert); a
force-save request for the same id then starts a second store write before
the first resolves.  Two flushes for the same id are now running
concurrently, so the claimed serialization does not hold. -/
theorem c3_concurrent_flushes_counterexample :
    flushesInFlightFor
      (run Sys.init [.noteUpdate "a" "h" "c" 0, .timerFire 0,
        .forceSaveStart "a" "p" "q"]) "a" = 2 := by decide

/-- Claim C3 (amended): what the cancel-then-reschedule mechanism actually
guarantees is narrower — a new edit for an id cancels the timer handle
recorded for that id before scheduling its replacement, so the previously
recorded timer can never fire afterwards and the map records the fresh
handle; it does not prevent a force-save (or a later timer) from starting a
store write while an earlier write for the same id is still in flight. -/
theorem c3_amended_edit_cancels_recorded_timer (tr : List Ev)
    (id h c : String) (now : Nat) (tid : Nat)
    (hm : (run Sys.init tr).saveTimers.lookup id = some tid) :
    (∀ t ∈ (step (run Sys.init tr) (.noteUpdate id h c now)).liveTimers,
        t.tid ≠ tid) ∧
    (step (run Sys.init tr) (.noteUpdate id h c now)).saveTimers.lookup id
      = some (run Sys.init tr).nextTimerId := by
  have hwf := wf_run Sys.init tr wf_init
  have htid : tid < (run Sys.init tr).nextTimerId :=
    hwf.mLt (id, tid) (lookup_some_mem hm)
  show (∀ t ∈ (noteUpdate (run Sys.init tr) id h c now).liveTimers,
      t.tid ≠ tid) ∧
    (noteUpdate (run Sys.init tr) id h c now).saveTimers.lookup id
      = some (run Sys.init tr).nextTimerId
  set s : Sys := run Sys.init tr with hsdef
  unfold noteUpdate scheduleAutoSave
  set s1 : Sys := if (s.noteEditStartTimes.lookup id).isSome then s
    else { s with noteEditStartTimes := s.noteEditStartTimes ++ [(id, now)] }
    with hs1
  have hfields : s1.saveTimers = s.saveTimers ∧ s1.liveTimers = s.liveTimers ∧
      s1.nextTimerId = s.nextTimerId := by
    rw [hs1]
    by_cases hb : (s.noteEditStartTimes.lookup id).isSome <;> simp [hb]
  obtain ⟨hf1, hf2, hf3⟩ := hfields
  constructor
  · intro t ht
    simp only [hf1, hf2, hf3, hm] at ht
    rcases List.mem_append.mp ht with hin | hnew
    · have := List.of_mem_filter hin
      exact bne_iff_ne.mp this
    · rw [List.mem_singleton.mp hnew]
      exact Nat.ne_of_gt htid
  · show (mapSet s1.saveTimers id s1.nextTimerId).lookup id = some s.nextTimerId
    rw [hf1, hf3]
    exact lookup_mapSet s.saveTimers id s.nextTimerId

/-- Witness for C3's amended theorem: a first edit records timer handle 0;
a second edit cancels it and records handle 1. -/
theorem c3_amended_witness :
    (∀ t ∈ (step (run Sys.init [.noteUpdate "a" "h" "c" 0])
        (.noteUpdate "a" "h2" "c2" 50)).liveTimers, t.tid ≠ 0) ∧
    (step (run Sys.init [.noteUpdate "a" "h" "c" 0])
        (.noteUpdate "a" "h2" "c2" 50)).saveTimers.lookup "a" = some 1 := by
  have h := c3_amended_edit_cancels_recorded_timer [.noteUpdate "a" "h" "c" 0]
    "a" "h2" "c2" 50 0 (by decide)
  exact ⟨h.1, h.2⟩

/-- One passive step (a timer firing or a write completing) can neither
recreate pending work for an id that has none nor write that id to the
store. -/
theorem noPendingWork_step (s : Sys) (e : Ev) (id : String)
    (h : NoPendingWork s id) (he : passiveEv e = true) :
    NoPendingWork (step s e) id ∧
    writeLogFor (step s e) id = writeLogFor s id := by
  obtain ⟨hpen, hliv, hinf⟩ := h
  cases e with
  | noteUpdate nid hd ct now => simp [passiveEv] at he
  | forceSaveStart nid hd ct => simp [passiveEv] at he
  | deleteNote nid => simp [passiveEv] at he
  | timerFire tid =>
    show NoPendingWork (fireTimer s tid) id ∧
      writeLogFor (fireTimer s tid) id = writeLogFor s id
    unfold fireTimer
    cases hf : s.liveTimers.find? (fun t => t.tid == tid) with
    | none => exact ⟨⟨hpen, hliv, hinf⟩, rfl⟩
    | some t =>
      have htmem : t ∈ s.liveTimers := List.mem_of_find?_eq_some hf
      have htid : t.noteId ≠ id := hliv t htmem
      dsimp only
      cases hp : (s.pendingNotes.lookup t.noteId) with
      | some d =>
        refine ⟨⟨hpen, ?_, ?_⟩, rfl⟩
        · intro u hu
          exact hliv u (List.mem_of_mem_filter hu)
        · intro w hw
          rcases List.mem_append.mp hw with hin | hnew
          · exact hinf w hin
          · rw [List.mem_singleton.mp hnew]
            exact htid
      | none =>
        exact ⟨⟨hpen, fun u hu => hliv u (List.mem_of_mem_filter hu), hinf⟩,
          rfl⟩
  | writeComplete wid ok =>
    show NoPendingWork (completeWrite s wid ok) id ∧
      writeLogFor (completeWrite s wid ok) id = writeLogFor s id
    unfold completeWrite
    cases hf : s.inFlight.find? (fun w => w.wid == wid) with
    | none => exact ⟨⟨hpen, hliv, hinf⟩, rfl⟩
    | some w =>
      have hwmem : w ∈ s.inFlight := List.mem_of_find?_eq_some hf
      have hwid : w.noteId ≠ id := hinf w hwmem
      have hwid2 : id ≠ w.noteId := Ne.symm hwid
      have hbeq : (w.noteId == id) = false := beq_eq_false_iff_ne.mpr hwid
      have hinf2 : ∀ u ∈ s.inFlight.filter (fun u => u.wid != wid),
          u.noteId ≠ id := fun u hu => hinf u (List.mem_of_mem_filter hu)
      have hliv2 : ∀ (tid : Nat) (u : ActiveTimer),
          u ∈ s.liveTimers.filter (fun t => t.tid != tid) → u.noteId ≠ id :=
        fun _ u hu => hliv u (List.mem_of_mem_filter hu)
      have hpen2 : (mapDelete s.pendingNotes w.noteId).lookup id = none := by
        rw [lookup_mapDelete_ne _ _ _ hwid2]
        exact hpen
      have hpen3 :
          (mapDelete (mapDelete s.pendingNotes w.noteId) w.noteId).lookup id
            = none := by
        rw [lookup_mapDelete_ne _ _ _ hwid2]
        exact hpen2
      have hlog : (s.writeLog ++ [(w.noteId, w.heading, w.content)]).filter
          (fun e => e.1 == id) = s.writeLog.filter (fun e => e.1 == id) := by
        rw [List.filter_append]
        simp [hbeq]
      dsimp only [applySaveResult]
      cases ok with
      | true =>
        cases horig : w.origin with
        | timerCb =>
          exact ⟨⟨hpen2, hliv, hinf2⟩, hlog⟩
        | forceSave =>
          rw [if_pos rfl]
          cases hl : (s.saveTimers.lookup w.noteId) with
          | some tid =>
            exact ⟨⟨hpen3, hliv2 tid, hinf2⟩, hlog⟩
          | none =>
            exact ⟨⟨hpen3, hliv, hinf2⟩, hlog⟩
        | drain =>
          exact ⟨⟨hpen2, hliv, hinf2⟩, hlog⟩
      | false =>
        cases horig : w.origin with
        | timerCb => exact ⟨⟨hpen, hliv, hinf2⟩, rfl⟩
        | forceSave =>
          rw [if_neg (by simp)]
          exact ⟨⟨hpen, hliv, hinf2⟩, rfl⟩
        | drain => exact ⟨⟨hpen, hliv, hinf2⟩, rfl⟩

/-- Passive steps preserve the absence of pending work and add no store
write for the id. -/
theorem noPendingWork_run (s : Sys) (id : String) (tr : List Ev)
    (h : NoPendingWork s id) (hp : ∀ e ∈ tr, passiveEv e = true) :
    NoPendingWork (run s tr) id ∧ writeLogFor (run s tr) id = writeLogFor s id := by
  induction tr generalizing s with
  | nil => exact ⟨h, rfl⟩
  | cons e tr ih =>
    have h1 := noPendingWork_step s e id h (hp e (List.mem_cons_self e tr))
    have h2 := ih (step s e) h1.1
      (fun e2 he2 => hp e2 (List.mem_cons_of_mem e he2))
    exact ⟨h2.1, h2.2.trans h1.2⟩

/-- Claim C4: an edit followed by a delete of the same note leaves no
pending data, no live timer and no in-flight write for that id, and however
much time then passes (any sequence of timer firings and write
completions), no store write for that id ever occurs. -/
theorem c4_delete_cancels_pending_flush (id h c : String) (now : Nat)
    (tr : List Ev) (hp : ∀ e ∈ tr, passiveEv e = true) :
    NoPendingWork
      (run (run Sys.init [.noteUpdate id h c now, .deleteNote id]) tr) id ∧
    writeLogFor
      (run (run Sys.init [.noteUpdate id h c now, .deleteNote id]) tr) id
      = [] := by
  have hbase1 : NoPendingWork
      (run Sys.init [.noteUpdate id h c now, .deleteNote id]) id := by
    refine ⟨?_, ?_, ?_⟩ <;>
      simp [run, step, noteUpdate, scheduleAutoSave, deleteNote, mapSet,
        mapDelete, Sys.init, List.lookup, List.filter]
  have hbase2 : writeLogFor
      (run Sys.init [.noteUpdate id h c now, .deleteNote id]) id = [] := by
    simp [run, step, noteUpdate, scheduleAutoSave, deleteNote, mapSet,
      mapDelete, Sys.init, List.lookup, List.filter, writeLogFor]
  have hrun := noPendingWork_run _ id tr hbase1 hp
  exact ⟨hrun.1, hrun.2.trans hbase2⟩

/-- Witness for C4: concrete edit, delete, then the cancelled timer handle
attempting to fire and a stray write completion — the write log for the id
stays empty. -/
theorem c4_witness :
    writeLogFor
      (run (run Sys.init [.noteUpdate "a" "h" "c" 0, .deleteNote "a"])
        [.timerFire 0, .writeComplete 0 true]) "a" = [] :=
  (c4_delete_cancels_pending_flush "a" "h" "c" 0
    [.timerFire 0, .writeComplete 0 true] (by decide)).2

/-! ## Claim theorems: listing and session start time -/

/-- The unshift loop of `GET /api/notes`: the result is the pending
summaries in reverse map order, followed by the decrypted store rows. -/
theorem getAllNotes_eq (dec : String → String → String → Option String)
    (rows : List StoredRow) (pend : List (String × NoteData)) :
    getAllNotes dec rows pend
      = (pend.map (fun p => pendingSummary p.1 p.2)).reverse
        ++ rows.map (decryptSummary dec) := by
  unfold getAllNotes
  generalize rows.map (decryptSummary dec) = acc
  induction pend generalizing acc with
  | nil => simp
  | cons p l ih =>
    rw [List.foldl_cons, ih (pendingSummary p.1 p.2 :: acc)]
    simp

set_option maxRecDepth 4000 in
/-- Counterexample to claim C5 as stated: a note with id `X` has a stale
store row (decrypting to `staleH` / `staleC`) and a pending edit
(`newH` / `newC`).  The listing prepends the pending summary but keeps the
stale store row, so the output contains a second entry for `X` carrying the
stale store values — the claim's "not the stale store values" fails. -/
theorem c5_stale_duplicate_counterexample :
    getAllNotes
      (fun enc _ _ => if enc == "EH" then some "staleH"
        else if enc == "EC" then some "staleC" else none)
      [⟨"X", "EH", "iv", "t", "EC", "iv", "t", 10, 20⟩]
      [("X", ⟨"newH", "newC", 30, 40⟩)]
      = [⟨"X", "newH", "newC", 30, 40⟩, ⟨"X", "staleH", "staleC", 10, 20⟩] ∧
    ("staleH" : String) ≠ "newH" := by
  exact ⟨by decide, by decide⟩

/-- Claim C5 (amended): pending notes are surfaced first in the listing —
one summary per pending entry, in reverse map order, built from the pending
heading and content with the same truncation as persisted summaries — but
the store's rows are passed through unmerged, so a note that is both
pending and stored also keeps a second, stale entry from the store. -/
theorem c5_amended_pending_surfaced_first_store_row_kept
    (dec : String → String → String → Option String) (rows : List StoredRow)
    (pend : List (String × NoteData)) :
    getAllNotes dec rows pend
      = (pend.map (fun p => pendingSummary p.1 p.2)).reverse
        ++ rows.map (decryptSummary dec) :=
  getAllNotes_eq dec rows pend

/-- Counterexample to claim C6 as stated: an edit at time 0 captures
session start 0; its flush completes; a later edit at time 5 should — per
the claim — capture a fresh start time 5, but `noteEditStartTimes` is never
cleared, so the new pending record still carries 0. -/
theorem c6_stale_session_time_counterexample :
    (run Sys.init [.noteUpdate "a" "h1" "c1" 0, .timerFire 0,
      .writeComplete 0 true,
      .noteUpdate "a" "h2" "c2" 5]).pendingNotes.lookup "a"
      = some ⟨"h2", "c2", 0, 5⟩ ∧ (0 : Nat) ≠ 5 := by
  exact ⟨by decide, by decide⟩

/-- Claim C6 (amended): the edit-session start time is captured only at the
first edit ever seen for the id since the coordinator started; it is never
refreshed — an edit recorded while a start time is on record (in particular
any edit after a flush) reuses the old start time as its `created_at`
candidate and leaves the start-time map unchanged. -/
theorem c6_amended_session_time_never_refreshed (tr : List Ev)
    (id h c : String) (now t0 : Nat)
    (h0 : (run Sys.init tr).noteEditStartTimes.lookup id = some t0) :
    (step (run Sys.init tr) (.noteUpdate id h c now)).pendingNotes.lookup id
      = some ⟨h, c, t0, now⟩ ∧
    (step (run Sys.init tr) (.noteUpdate id h c now)).noteEditStartTimes
      = (run Sys.init tr).noteEditStartTimes := by
  show (noteUpdate (run Sys.init tr) id h c now).pendingNotes.lookup id
      = some ⟨h, c, t0, now⟩ ∧
    (noteUpdate (run Sys.init tr) id h c now).noteEditStartTimes
      = (run Sys.init tr).noteEditStartTimes
  unfold noteUpdate
  simp only [h0, Option.isSome_some, if_true, Option.getD_some]
  exact ⟨lookup_mapSet _ _ _, rfl⟩

/-- Witness for C6's amended theorem: after a flushed first edit at time 0,
an edit at time 5 still carries `created_at` 0. -/
theorem c6_amended_witness :
    (step (run Sys.init [.noteUpdate "a" "h1" "c1" 0, .timerFire 0,
        .writeComplete 0 true]) (.noteUpdate "a" "h2" "c2" 5)).pendingNotes.lookup
        "a" = some ⟨"h2", "c2", 0, 5⟩ ∧
    (step (run Sys.init [.noteUpdate "a" "h1" "c1" 0, .timerFire 0,
        .writeComplete 0 true]) (.noteUpdate "a" "h2" "c2" 5)).noteEditStartTimes
      = (run Sys.init [.noteUpdate "a" "h1" "c1" 0, .timerFire 0,
        .writeComplete 0 true]).noteEditStartTimes :=
  c6_amended_session_time_never_refreshed
    [.noteUpdate "a" "h1" "c1" 0, .timerFire 0, .writeComplete 0 true]
    "a" "h2" "c2" 5 0 (by decide)

/-! ## Claim theorems: shutdown drain -/

/-- Write-log effect of draining a list of pending entries: one log entry
per successful outcome, in order; failures contribute nothing. -/
theorem foldl_applySave_writeLog (oc : String → Bool)
    (l : List (String × NoteData)) (acc : Sys) :
    (l.foldl (fun a p =>
        applySaveResult a p.1 p.2.heading p.2.content (oc p.1)) acc).writeLog
      = acc.writeLog ++ l.filterMap (fun p =>
          if oc p.1 then some (p.1, p.2.heading, p.2.content) else none) := by
  induction l generalizing acc with
  | nil => simp
  | cons p l ih =>
    rw [List.foldl_cons, ih]
    cases hoc : oc p.1 with
    | true => simp [applySaveResult, hoc]
    | false => simp [applySaveResult, hoc]

/-- Pending-map effect of draining: each successful outcome deletes its own
key. -/
theorem foldl_applySave_pending (oc : String → Bool)
    (l : List (String × NoteData)) (acc : Sys) :
    (l.foldl (fun a p =>
        applySaveResult a p.1 p.2.heading p.2.content (oc p.1)) acc).pendingNotes
      = l.foldl
          (fun m p => if oc p.1 then mapDelete m p.1 else m) acc.pendingNotes := by
  induction l generalizing acc with
  | nil => rfl
  | cons p l ih =>
    rw [List.foldl_cons, List.foldl_cons, ih]
    cases hoc : oc p.1 with
    | true => simp [applySaveResult, hoc]
    | false => simp [applySaveResult, hoc]

/-- Folding deletions over a map keeps exactly the entries whose key is
never deleted. -/
theorem foldDelete_filter (oc : String → Bool)
    (l m : List (String × NoteData)) :
    l.foldl (fun m2 p => if oc p.1 then mapDelete m2 p.1 else m2) m
      = m.filter (fun q => l.all (fun p => !(oc p.1 && (q.1 == p.1)))) := by
  induction l generalizing m with
  | nil => simp
  | cons p l ih =>
    rw [List.foldl_cons, ih]
    cases hoc : oc p.1 with
    | false =>
      simp only [hoc, Bool.false_eq_true, if_false]
      refine List.filter_congr ?_
      intro q _
      simp [hoc]
    | true =>
      simp only [hoc, if_true]
      unfold mapDelete
      rw [List.filter_filter]
      refine List.filter_congr ?_
      intro q _
      simp only [List.all_cons, hoc, Bool.true_and]
      cases hqp : (q.1 == p.1) with
      | true => simp [bne, hqp]
      | false => simp [bne, hqp]

/-- Claim C7: the SIGTERM drain pushes exactly one save per pending entry
(the pending keys, which never repeat), awaits them all, logs one store
write per successful outcome — independent of any failures among the others
— and leaves exactly the failed entries pending. -/
theorem c7_drain_each_pending_once (tr : List Ev) (oc : String → Bool) :
    ((run Sys.init tr).pendingNotes.map (·.1)).Nodup ∧
    drainAttempts (run Sys.init tr) = (run Sys.init tr).pendingNotes.map (·.1) ∧
    (drainAll (run Sys.init tr) oc).writeLog
      = (run Sys.init tr).writeLog
        ++ (run Sys.init tr).pendingNotes.filterMap
            (fun p => if oc p.1 then some (p.1, p.2.heading, p.2.content)
              else none) ∧
    (drainAll (run Sys.init tr) oc).pendingNotes
      = (run Sys.init tr).pendingNotes.filter (fun p => !(oc p.1)) := by
  refine ⟨(wf_run Sys.init tr wf_init).pNodup, rfl,
    foldl_applySave_writeLog oc _ _, ?_⟩
  show (drainAll (run Sys.init tr) oc).pendingNotes = _
  unfold drainAll
  rw [foldl_applySave_pending, foldDelete_filter]
  refine List.filter_congr ?_
  intro q hq
  cases hoc : oc q.1 with
  | true =>
    have hall : ¬ ((run Sys.init tr).pendingNotes.all
        (fun p => !(oc p.1 && (q.1 == p.1))) = true) := by
      intro hall
      have hx := List.all_eq_true.mp hall q hq
      simp [hoc] at hx
    rw [Bool.not_eq_true] at hall
    rw [hall]
    simp
  | false =>
    have hall : (run Sys.init tr).pendingNotes.all
        (fun p => !(oc p.1 && (q.1 == p.1))) = true := by
      refine List.all_eq_true.mpr ?_
      intro p _
      cases hqp : (q.1 == p.1) with
      | true =>
        have : oc p.1 = false := by
          rw [← eq_of_beq hqp]
          exact hoc
        simp [this]
      | false => simp [hqp]
    rw [hall]
    simp

/-! ## Claim theorems: decryption fallback in the listing -/

set_option maxRecDepth 4000 in
/-- Counterexample to claim C9 as stated: a stored note whose heading fails
authenticated decryption but whose content decrypts to `"hello"` is listed
with heading `"Untitled"` and content `"hello"` — not with empty content as
the claim requires for every note "whose heading or content fails". -/
theorem c9_partial_failure_counterexample :
    getAllNotes (fun enc _ _ => if enc == "EC" then some "hello" else none)
      [⟨"X", "EH", "iv", "t", "EC", "iv", "t", 1, 2⟩] []
      = [⟨"X", "Untitled", "hello", 1, 2⟩] ∧ ("hello" : String) ≠ "" := by
  exact ⟨by decide, by decide⟩

set_option maxRecDepth 4000 in
/-- Claim C9 (amended): decryption failure degrades per field — a failing
heading is listed as `"Untitled"` and a failing content as `""`, while a
field that decrypts successfully keeps its decrypted value: a nonempty
encrypted heading decrypting to `hv` is listed as `hv` (or `"Untitled"`
when `hv` is empty, via the `|| "Untitled"` guard) and a nonempty encrypted
content decrypting to `cv` is listed as `cv` under the summary truncation —
and the listing always returns one summary per pending entry plus one per
stored row, never propagating a decryption failure. -/
theorem c9_amended_per_field_fallback
    (dec : String → String → String → Option String) (row : StoredRow)
    (rows : List StoredRow) (pend : List (String × NoteData)) :
    (dec row.heading_encrypted row.heading_iv row.heading_auth_tag = none →
      (decryptSummary dec row).heading = "Untitled") ∧
    (dec row.content_encrypted row.content_iv row.content_auth_tag = none →
      (decryptSummary dec row).content = "") ∧
    (∀ hv : String, row.heading_encrypted ≠ "" →
      dec row.heading_encrypted row.heading_iv row.heading_auth_tag
        = some hv →
      (decryptSummary dec row).heading
        = if hv == "" then "Untitled" else hv) ∧
    (∀ cv : String, row.content_encrypted ≠ "" →
      dec row.content_encrypted row.content_iv row.content_auth_tag
        = some cv →
      (decryptSummary dec row).content = truncateContent cv) ∧
    (getAllNotes dec rows pend).length = pend.length + rows.length := by
  refine ⟨?_, ?_, ?_, ?_, ?_⟩
  · intro hfail
    unfold decryptSummary
    by_cases henc : (row.heading_encrypted == "") = true <;>
      simp [henc, hfail]
  · intro hfail
    have htake : ("" : String).take 100 = "" := by decide
    unfold decryptSummary
    by_cases henc : (row.content_encrypted == "") = true <;>
      simp [henc, hfail, truncateContent, htake]
  · intro hv henc hdec
    have hb : (row.heading_encrypted == "") = false :=
      beq_eq_false_iff_ne.mpr henc
    unfold decryptSummary
    simp [hb, hdec]
  · intro cv henc hdec
    have hb : (row.content_encrypted == "") = false :=
      beq_eq_false_iff_ne.mpr henc
    unfold decryptSummary
    simp [hb, hdec]
  · rw [getAllNotes_eq]
    simp [Nat.add_comm]

set_option maxRecDepth 4000 in
/-- Witness for C9's amended theorem, at two concrete inputs covering both
failure directions: with the heading rejected and the content decrypting to
`"hello"`, the entry is `"Untitled"` / `"hello"`; with the heading
decrypting to `"ok"` and the content rejected, the entry is `"ok"` / `""`;
and the listing still returns its one entry per row. -/
theorem c9_amended_witness :
    (decryptSummary (fun enc _ _ => if enc == "EC" then some "hello"
        else none)
      ⟨"X", "EH", "iv", "t", "EC", "iv", "t", 1, 2⟩).heading = "Untitled" ∧
    (decryptSummary (fun enc _ _ => if enc == "EC" then some "hello"
        else none)
      ⟨"X", "EH", "iv", "t", "EC", "iv", "t", 1, 2⟩).content
      = truncateContent "hello" ∧
    (decryptSummary (fun enc _ _ => if enc == "EH" then some "ok" else none)
      ⟨"X", "EH", "iv", "t", "EC", "iv", "t", 1, 2⟩).heading = "ok" ∧
    (decryptSummary (fun enc _ _ => if enc == "EH" then some "ok" else none)
      ⟨"X", "EH", "iv", "t", "EC", "iv", "t", 1, 2⟩).content = "" ∧
    (getAllNotes (fun enc _ _ => if enc == "EC" then some "hello" else none)
      [⟨"X", "EH", "iv", "t", "EC", "iv", "t", 1, 2⟩] []).length = 0 + 1 := by
  have hA := c9_amended_per_field_fallback
    (fun enc _ _ => if enc == "EC" then some "hello" else none)
    ⟨"X", "EH", "iv", "t", "EC", "iv", "t", 1, 2⟩
    [⟨"X", "EH", "iv", "t", "EC", "iv", "t", 1, 2⟩] []
  have hB := c9_amended_per_field_fallback
    (fun enc _ _ => if enc == "EH" then some "ok" else none)
    ⟨"X", "EH", "iv", "t", "EC", "iv", "t", 1, 2⟩ [] []
  refine ⟨hA.1 (by decide), hA.2.2.2.1 "hello" (by decide) (by decide),
    ?_, hB.2.1 (by decide), hA.2.2.2.2⟩
  exact (hB.2.2.1 "ok" (by decide) (by decide)).trans (by decide)

/-! ## Claim theorems: force-save outcome handling -/

theorem find?_wid_append (l : List InFlightWrite) (nw : Nat) (o : WriteOrigin)
    (id h c : String) (hl : ∀ u ∈ l, u.wid ≠ nw) :
    (l ++ [(⟨nw, o, id, h, c⟩ : InFlightWrite)]).find? (fun u => u.wid == nw)
      = some ⟨nw, o, id, h, c⟩ := by
  induction l with
  | nil => simp [List.find?]
  | cons u l ih =>
    have hb : (u.wid == nw) = false :=
      beq_eq_false_iff_ne.mpr (hl u (List.mem_cons_self u l))
    rw [List.cons_append]
    simp only [List.find?, hb]
    exact ih (fun v hv => hl v (List.mem_cons_of_mem u hv))

theorem filter_wid_append (l : List InFlightWrite) (nw : Nat) (o : WriteOrigin)
    (id h c : String) (hl : ∀ u ∈ l, u.wid ≠ nw) :
    (l ++ [(⟨nw, o, id, h, c⟩ : InFlightWrite)]).filter
      (fun u => u.wid != nw) = l := by
  rw [List.filter_append]
  have h1 : l.filter (fun u => u.wid != nw) = l :=
    List.filter_eq_self.mpr (fun u hu => bne_iff_ne.mpr (hl u hu))
  have h2 : ([(⟨nw, o, id, h, c⟩ : InFlightWrite)]).filter
      (fun u => u.wid != nw) = [] := by simp
  rw [h1, h2, List.append_nil]

/-- A failing force-save write changes nothing except allocating the write
id and appending the failure response: pending data, recorded timer, live
timers, in-flight writes and the write log are untouched. -/
theorem completeWrite_force_fail (s : Sys) (id h c : String)
    (hl : ∀ u ∈ s.inFlight, u.wid ≠ s.nextWriteId) :
    forceSaveFailState s id h c
      = { s with
          nextWriteId := s.nextWriteId + 1
          forceResponses := s.forceResponses ++ [(id, false)] } := by
  show completeWrite (forceSaveStart s id h c) s.nextWriteId false = _
  unfold NoteNinja.forceSaveStart completeWrite
  dsimp only
  rw [find?_wid_append s.inFlight s.nextWriteId .forceSave id h c hl]
  dsimp only [applySaveResult]
  rw [filter_wid_append s.inFlight s.nextWriteId .forceSave id h c hl,
    if_neg (by simp), if_neg (by simp)]

/-- A successful force-save write logs the payload, removes the pending
entry, cancels and unrecords the note's timer if one is recorded, and
appends the success response. -/
theorem completeWrite_force_ok (s : Sys) (id h c : String)
    (hl : ∀ u ∈ s.inFlight, u.wid ≠ s.nextWriteId) :
    forceSaveOkState s id h c
      = (match s.saveTimers.lookup id with
         | some tid =>
           { s with
             nextWriteId := s.nextWriteId + 1
             writeLog := s.writeLog ++ [(id, h, c)]
             pendingNotes := mapDelete (mapDelete s.pendingNotes id) id
             liveTimers := s.liveTimers.filter (fun t => t.tid != tid)
             saveTimers := mapDelete s.saveTimers id
             forceResponses := s.forceResponses ++ [(id, true)] }
         | none =>
           { s with
             nextWriteId := s.nextWriteId + 1
             writeLog := s.writeLog ++ [(id, h, c)]
             pendingNotes := mapDelete (mapDelete s.pendingNotes id) id
             forceResponses := s.forceResponses ++ [(id, true)] }) := by
  show completeWrite (forceSaveStart s id h c) s.nextWriteId true = _
  unfold NoteNinja.forceSaveStart completeWrite
  dsimp only
  rw [find?_wid_append s.inFlight s.nextWriteId .forceSave id h c hl]
  dsimp only [applySaveResult]
  rw [filter_wid_append s.inFlight s.nextWriteId .forceSave id h c hl,
    if_pos rfl, if_pos rfl]
  cases hlk : s.saveTimers.lookup id <;> rfl

/-- Claim C10: when a force-save's store write fails, the handler reports
failure and leaves the note's pending data, recorded timer, live timers,
in-flight writes and write log exactly as they were, so the delayed
auto-save can still fire; only when the write succeeds are the pending
entry removed and the recorded timer cancelled, with the payload written
and success reported. -/
theorem c10_force_save_failure_leaves_pending (tr : List Ev)
    (id h c : String) :
    (forceSaveFailState (run Sys.init tr) id h c).pendingNotes
      = (run Sys.init tr).pendingNotes ∧
    (forceSaveFailState (run Sys.init tr) id h c).saveTimers
      = (run Sys.init tr).saveTimers ∧
    (forceSaveFailState (run Sys.init tr) id h c).liveTimers
      = (run Sys.init tr).liveTimers ∧
    (forceSaveFailState (run Sys.init tr) id h c).inFlight
      = (run Sys.init tr).inFlight ∧
    (forceSaveFailState (run Sys.init tr) id h c).writeLog
      = (run Sys.init tr).writeLog ∧
    (forceSaveFailState (run Sys.init tr) id h c).forceResponses
      = (run Sys.init tr).forceResponses ++ [(id, false)] ∧
    (forceSaveOkState (run Sys.init tr) id h c).pendingNotes.lookup id
      = none ∧
    (forceSaveOkState (run Sys.init tr) id h c).saveTimers.lookup id
      = none ∧
    (forceSaveOkState (run Sys.init tr) id h c).writeLog
      = (run Sys.init tr).writeLog ++ [(id, h, c)] ∧
    (forceSaveOkState (run Sys.init tr) id h c).forceResponses
      = (run Sys.init tr).forceResponses ++ [(id, true)] ∧
    (∀ tid, (run Sys.init tr).saveTimers.lookup id = some tid →
      ∀ t ∈ (forceSaveOkState (run Sys.init tr) id h c).liveTimers,
        t.tid ≠ tid) := by
  have hwf := wf_run Sys.init tr wf_init
  have hl : ∀ u ∈ (run Sys.init tr).inFlight,
      u.wid ≠ (run Sys.init tr).nextWriteId :=
    fun u hu => Nat.ne_of_lt (hwf.wLt u hu)
  have hfail := completeWrite_force_fail (run Sys.init tr) id h c hl
  have hok := completeWrite_force_ok (run Sys.init tr) id h c hl
  rw [hfail, hok]
  cases hlk : (run Sys.init tr).saveTimers.lookup id with
  | some tid =>
    refine ⟨rfl, rfl, rfl, rfl, rfl, rfl, ?_, ?_, rfl, rfl, ?_⟩
    · exact lookup_mapDelete _ id
    · exact lookup_mapDelete _ id
    · intro tid2 htid2 t ht
      have := List.of_mem_filter ht
      injection htid2 with he
      rw [← he]
      exact bne_iff_ne.mp this
  | none =>
    refine ⟨rfl, rfl, rfl, rfl, rfl, rfl, ?_, hlk, rfl, rfl, ?_⟩
    · exact lookup_mapDelete _ id
    · intro tid2 htid2
      exact absurd htid2 (by simp)

/-- Witness for C10: a state with one recorded edit (so a recorded timer
exists), exercising the timer-cancellation conclusion of the success
case. -/
theorem c10_witness :
    (forceSaveFailState (run Sys.init [.noteUpdate "a" "h" "c" 0]) "a" "p"
      "q").pendingNotes
      = (run Sys.init [.noteUpdate "a" "h" "c" 0]).pendingNotes ∧
    (forceSaveOkState (run Sys.init [.noteUpdate "a" "h" "c" 0]) "a" "p"
      "q").pendingNotes.lookup "a" = none ∧
    (∀ t ∈ (forceSaveOkState (run Sys.init [.noteUpdate "a" "h" "c" 0]) "a"
        "p" "q").liveTimers, t.tid ≠ 0) := by
  have h := c10_force_save_failure_leaves_pending [.noteUpdate "a" "h" "c" 0]
    "a" "p" "q"
  exact ⟨h.1, h.2.2.2.2.2.2.1,
    h.2.2.2.2.2.2.2.2.2.2 0 (by decide)⟩

end NoteNinja
